import Mathlib

/-!
Verification of the per-user task queue manager of the Terabox-Drive bot
(src/utils/queue_manager.py) and the consumer-loop decision logic of
src/handlers/link_handler.py (process_queue).

Python task objects are modelled as entries of a heap `store : Nat → Option Task`;
an index plays the role of a Python object reference, so the aliasing between
`queues`, `active_tasks` and `user_tasks` (all holding references to the same
mutable Task objects) is captured by all three holding indices into the heap.
-/

set_option autoImplicit false

namespace TeraboxDrive

/-- Task lifecycle status, mirroring the string statuses of the source:
"queued", "downloading", "uploading", "completed", "failed", "cancelled". -/
inductive Status where
  | queued
  | downloading
  | uploading
  | completed
  | failed
  | cancelled
deriving DecidableEq, Repr

/-- The Task dataclass of queue_manager.py (creation timestamp and the routing
metadata fields are irrelevant to every property below and omitted). -/
structure Task where
  task_id : String
  user_id : Int
  url : String
  filename : String := "Unknown"
  status : Status := Status.queued
  progress : Nat := 0
deriving DecidableEq, Repr

/-- The QueueManager state: `store`/`next_idx` form the object heap,
`queues` are the per-user asyncio.Queue contents (head = front),
`active_tasks`, `user_tasks`, `cancelled_users`, `processing` mirror the
dictionaries of the same names in the source. -/
@[ext]
structure QueueManager where
  store : Nat → Option Task
  next_idx : Nat
  queues : Int → List Nat
  active_tasks : Int → Option Nat
  user_tasks : Int → List Nat
  cancelled_users : Int → Bool
  processing : Int → Bool

/-- Fresh manager: all dictionaries empty (defaultdict semantics). -/
def QueueManager.init : QueueManager where
  store := fun _ => none
  next_idx := 0
  queues := fun _ => []
  active_tasks := fun _ => none
  user_tasks := fun _ => []
  cancelled_users := fun _ => false
  processing := fun _ => false

/-- The status of the task object at heap index `i`. -/
def statusAt (s : QueueManager) (i : Nat) : Option Status :=
  (s.store i).map Task.status

/-- The task id of the task object at heap index `i`. -/
def taskIdAt (s : QueueManager) (i : Nat) : Option String :=
  (s.store i).map Task.task_id

/-- status in ["queued", "downloading", "uploading"] -/
def isNonterminalB : Option Status → Bool
  | some Status.queued => true
  | some Status.downloading => true
  | some Status.uploading => true
  | _ => false

/-- status in ["completed", "failed", "cancelled"] -/
def isTerminalB : Option Status → Bool
  | some Status.completed => true
  | some Status.failed => true
  | some Status.cancelled => true
  | _ => false

/-- In-place mutation `task.status = st` of the object at index `i`. -/
def setStatus (s : QueueManager) (i : Nat) (st : Status) : QueueManager :=
  { s with store := fun j => if j = i then (s.store i).map (fun t => { t with status := st }) else s.store j }

/-- QueueManager.add_task: appends the task to user_tasks[task.user_id] and
puts it on queues[task.user_id]; returns True (the except branch is
unreachable for these in-memory operations). -/
def add_task (s : QueueManager) (t : Task) : QueueManager × Bool :=
  let i := s.next_idx
  ({ s with
      store := fun j => if j = i then some t else s.store j
      next_idx := i + 1
      user_tasks := fun v => if v = t.user_id then s.user_tasks v ++ [i] else s.user_tasks v
      queues := fun v => if v = t.user_id then s.queues v ++ [i] else s.queues v }, true)

/-- QueueManager.add_multiple_tasks: adds each task, counting successes. -/
def add_multiple_tasks (s : QueueManager) (ts : List Task) : QueueManager × Nat :=
  ts.foldl (fun p t =>
    let r := add_task p.1 t
    (r.1, if r.2 then p.2 + 1 else p.2)) (s, 0)

/-- QueueManager.get_next_task: None if the queue is empty, otherwise pops the
front of the queue and records it in active_tasks[user_id]. -/
def get_next_task (s : QueueManager) (u : Int) : QueueManager × Option Nat :=
  match s.queues u with
  | [] => (s, none)
  | i :: rest =>
    ({ s with
        queues := fun v => if v = u then rest else s.queues v
        active_tasks := fun v => if v = u then some i else s.active_tasks v }, some i)

/-- QueueManager.get_user_tasks: the (references to) tasks of the user whose
status is in ["queued", "downloading", "uploading"]. -/
def get_user_tasks (s : QueueManager) (u : Int) : List Nat :=
  (s.user_tasks u).filter (fun i => isNonterminalB (statusAt s i))

/-- QueueManager.get_queue_position: (terminal count + 1, total). -/
def get_queue_position (s : QueueManager) (u : Int) : Nat × Nat :=
  let tasks := s.user_tasks u
  (tasks.countP (fun i => isTerminalB (statusAt s i)) + 1, tasks.length)

/-- QueueManager.cancel_current_task: if an active task exists, set its status
to "cancelled", add the user to cancelled_users, and return True; otherwise
return False without touching anything. -/
def cancel_current_task (s : QueueManager) (u : Int) : QueueManager × Bool :=
  match s.active_tasks u with
  | some i =>
    let s1 := setStatus s i Status.cancelled
    ({ s1 with cancelled_users := fun v => if v = u then true else s1.cancelled_users v }, true)
  | none => (s, false)

/-- One turn of the drain loop of cancel_all_tasks: the task popped from the
queue gets status "cancelled". -/
def drainStep (s : QueueManager) (i : Nat) : QueueManager :=
  setStatus s i Status.cancelled

/-- One turn of the final sweep of cancel_all_tasks: a task of the user whose
status is still non-terminal gets status "cancelled". -/
def sweepStep (s : QueueManager) (i : Nat) : QueueManager :=
  if isNonterminalB (statusAt s i) then setStatus s i Status.cancelled else s

/-- Stage of cancel_all_tasks that adds the user to cancelled_users. -/
def setCancelFlag (s : QueueManager) (u : Int) : QueueManager :=
  { s with cancelled_users := fun v => if v = u then true else s.cancelled_users v }

/-- Stage of cancel_all_tasks that cancels the active task, if present. -/
def cancelActiveStage (s : QueueManager) (u : Int) : QueueManager :=
  match s.active_tasks u with
  | some i => setStatus s i Status.cancelled
  | none => s

/-- Stage of cancel_all_tasks that empties queues[user_id]. -/
def emptyQueueStage (s : QueueManager) (u : Int) : QueueManager :=
  { s with queues := fun v => if v = u then [] else s.queues v }

/-- QueueManager.cancel_all_tasks: adds the user to cancelled_users; cancels
the active task (counting 1) if present; drains the pending queue, cancelling
and counting each popped task; finally sweeps user_tasks[user_id], cancelling
every still-non-terminal task (without counting). Returns the count. -/
def cancel_all_tasks (s : QueueManager) (u : Int) : QueueManager × Nat :=
  let s1 := setCancelFlag s u
  let activeCount := match s1.active_tasks u with
    | some _ => 1
    | none => 0
  let s2 := cancelActiveStage s1 u
  let qs := s2.queues u
  let s3 := qs.foldl drainStep s2
  let s4 := emptyQueueStage s3 u
  let s5 := (s4.user_tasks u).foldl sweepStep s4
  (s5, activeCount + qs.length)

/-- QueueManager.is_cancelled. -/
def is_cancelled (s : QueueManager) (u : Int) : Bool :=
  s.cancelled_users u

/-- QueueManager.clear_cancelled. -/
def clear_cancelled (s : QueueManager) (u : Int) : QueueManager :=
  { s with cancelled_users := fun v => if v = u then false else s.cancelled_users v }

/-- First phase of QueueManager.mark_completed: the for-loop that finds the
first task in user_tasks[user_id] with the given task_id and sets its status. -/
def markStatusStep (s : QueueManager) (u : Int) (tid : String) (st : Status) : QueueManager :=
  match (s.user_tasks u).find? (fun i => decide (taskIdAt s i = some tid)) with
  | some i => setStatus s i st
  | none => s

/-- Second phase of QueueManager.mark_completed: if the user's active task has
the given task_id, delete the active-task entry. -/
def clearActiveStep (s : QueueManager) (u : Int) (tid : String) : QueueManager :=
  match s.active_tasks u with
  | some j =>
    if taskIdAt s j = some tid then
      { s with active_tasks := fun v => if v = u then none else s.active_tasks v }
    else s
  | none => s

/-- QueueManager.mark_completed: status := "completed" if success else
"failed" on the first matching task, then clear the active slot on match. -/
def mark_completed (s : QueueManager) (u : Int) (tid : String) (success : Bool) : QueueManager :=
  clearActiveStep (markStatusStep s u tid (if success then Status.completed else Status.failed)) u tid

/-- QueueManager.clear_user_tasks. -/
def clear_user_tasks (s : QueueManager) (u : Int) : QueueManager :=
  { s with
      user_tasks := fun v => if v = u then [] else s.user_tasks v
      cancelled_users := fun v => if v = u then false else s.cancelled_users v
      queues := fun v => if v = u then [] else s.queues v
      active_tasks := fun v => if v = u then none else s.active_tasks v }

/-- QueueManager.is_processing. -/
def is_processing (s : QueueManager) (u : Int) : Bool :=
  s.processing u

/-- QueueManager.set_processing. -/
def set_processing (s : QueueManager) (u : Int) (b : Bool) : QueueManager :=
  { s with processing := fun v => if v = u then b else s.processing v }

/-- The decision made at the top of one iteration of process_queue
(link_handler.py, lines 174-183). -/
inductive LoopDecision where
  | stopCancelled
  | stopEmpty
  | processTask (i : Nat)
deriving DecidableEq, Repr

/-- One iteration head of process_queue: if is_cancelled, clear the flag and
break; otherwise dequeue, and break when no task is returned. -/
def loop_iteration (s : QueueManager) (u : Int) : QueueManager × LoopDecision :=
  if is_cancelled s u then (clear_cancelled s u, LoopDecision.stopCancelled)
  else
    match get_next_task s u with
    | (s1, none) => (s1, LoopDecision.stopEmpty)
    | (s1, some i) => (s1, LoopDecision.processTask i)

/-- Manager operations appearing in a client history (the enqueue, dequeue and
cancel operations the claims quantify over, plus completion reporting). -/
inductive Op where
  | add (t : Task)
  | next (u : Int)
  | cancelCur (u : Int)
  | cancelAll (u : Int)
  | markDone (u : Int) (tid : String) (success : Bool)

/-- Apply one operation to the state, discarding the returned value. -/
def applyOp (s : QueueManager) : Op → QueueManager
  | Op.add t => (add_task s t).1
  | Op.next u => (get_next_task s u).1
  | Op.cancelCur u => (cancel_current_task s u).1
  | Op.cancelAll u => (cancel_all_tasks s u).1
  | Op.markDone u tid b => mark_completed s u tid b

/-- Run a history of operations from the fresh manager. -/
def runOps (ops : List Op) : QueueManager :=
  ops.foldl applyOp QueueManager.init

/-- Number of heap entries whose status was changed to "cancelled" between
state `s` and state `t`. -/
def countTransitioned (s t : QueueManager) : Nat :=
  (List.range s.next_idx).countP
    (fun i => decide (statusAt s i ≠ some Status.cancelled ∧ statusAt t i = some Status.cancelled))

/-- Add a list of tasks one by one (the add_task part of add_multiple_tasks). -/
def addAll (s : QueueManager) (ts : List Task) : QueueManager :=
  ts.foldl (fun p t => (add_task p t).1) s

/-- Repeatedly call get_next_task, collecting the tasks handed out, stopping
after `n` calls or on the first None. -/
def drainTasks : Nat → QueueManager → Int → List Task
  | 0, _, _ => []
  | n + 1, s, u =>
    match get_next_task s u with
    | (_, none) => []
    | (s1, some i) =>
      (match s1.store i with
       | some t => [t]
       | none => []) ++ drainTasks n s1 u

/-- Sample task used in concrete evaluations. -/
def t1 : Task := { task_id := "t1", user_id := 1, url := "u1" }

/-- Second sample task used in concrete evaluations. -/
def t2 : Task := { task_id := "t2", user_id := 1, url := "u2" }

/-! ## Basic lemmas about the heap and the stages -/

theorem setStatus_user_tasks (s : QueueManager) (i : Nat) (st : Status) :
    (setStatus s i st).user_tasks = s.user_tasks := rfl

theorem setStatus_queues (s : QueueManager) (i : Nat) (st : Status) :
    (setStatus s i st).queues = s.queues := rfl

theorem setStatus_active_tasks (s : QueueManager) (i : Nat) (st : Status) :
    (setStatus s i st).active_tasks = s.active_tasks := rfl

theorem setStatus_cancelled_users (s : QueueManager) (i : Nat) (st : Status) :
    (setStatus s i st).cancelled_users = s.cancelled_users := rfl

theorem statusAt_setStatus (s : QueueManager) (i : Nat) (st : Status) (j : Nat) :
    statusAt (setStatus s i st) j =
      if j = i then (statusAt s j).map (fun _ => st) else statusAt s j := by
  simp only [statusAt, setStatus]
  split
  · rename_i h
    subst h
    cases s.store j <;> rfl
  · rfl

theorem taskIdAt_setStatus (s : QueueManager) (i : Nat) (st : Status) (j : Nat) :
    taskIdAt (setStatus s i st) j = taskIdAt s j := by
  simp only [taskIdAt, setStatus]
  split
  · rename_i h
    subst h
    cases s.store j <;> rfl
  · rfl

/-- Generic preservation of an observation through a fold. -/
theorem foldl_preserve {α : Type} (g : QueueManager → α) (f : QueueManager → Nat → QueueManager)
    (hg : ∀ t i, g (f t i) = g t) (l : List Nat) (s : QueueManager) :
    g (l.foldl f s) = g s := by
  induction l generalizing s with
  | nil => rfl
  | cons i l ih => rw [List.foldl_cons, ih, hg]

/-- All writes performed by the cancellation operations write the status
"cancelled"; so each heap entry either keeps its status or (when it exists)
ends with status "cancelled". -/
def StatusEvolution (s t : QueueManager) : Prop :=
  ∀ i, statusAt t i = statusAt s i ∨
    ((statusAt s i).isSome ∧ statusAt t i = some Status.cancelled)

theorem statusEvolution_refl (s : QueueManager) : StatusEvolution s s :=
  fun _ => Or.inl rfl

theorem statusEvolution_trans {s t u : QueueManager}
    (h1 : StatusEvolution s t) (h2 : StatusEvolution t u) : StatusEvolution s u := by
  intro i
  rcases h1 i with e1 | ⟨hs, e1⟩
  · rcases h2 i with e2 | ⟨ht, e2⟩
    · exact Or.inl (e2.trans e1)
    · rw [e1] at ht
      exact Or.inr ⟨ht, e2⟩
  · rcases h2 i with e2 | ⟨ht, e2⟩
    · exact Or.inr ⟨hs, e2.trans e1⟩
    · exact Or.inr ⟨hs, e2⟩

theorem statusEvolution_setStatus (s : QueueManager) (i : Nat) :
    StatusEvolution s (setStatus s i Status.cancelled) := by
  intro j
  rw [statusAt_setStatus]
  split
  · cases hs : statusAt s j with
    | none => exact Or.inl rfl
    | some st => exact Or.inr ⟨rfl, rfl⟩
  · exact Or.inl rfl

theorem statusEvolution_sweepStep (s : QueueManager) (i : Nat) :
    StatusEvolution s (sweepStep s i) := by
  unfold sweepStep
  split
  · exact statusEvolution_setStatus s i
  · exact statusEvolution_refl s

theorem statusEvolution_foldl (f : QueueManager → Nat → QueueManager)
    (hf : ∀ t i, StatusEvolution t (f t i)) (l : List Nat) (s : QueueManager) :
    StatusEvolution s (l.foldl f s) := by
  induction l generalizing s with
  | nil => exact statusEvolution_refl s
  | cons i l ih =>
    rw [List.foldl_cons]
    exact statusEvolution_trans (hf s i) (ih (f s i))

theorem sweepStep_not_nonterminal_self (s : QueueManager) (j : Nat) :
    isNonterminalB (statusAt (sweepStep s j) j) = false := by
  unfold sweepStep
  split
  · rename_i h
    rw [statusAt_setStatus, if_pos rfl]
    cases hs : statusAt s j with
    | none => rfl
    | some st => rfl
  · rename_i h
    exact Bool.not_eq_true _ ▸ Bool.eq_false_iff.mpr h

theorem sweepStep_preserves_not_nonterminal (s : QueueManager) (j i : Nat)
    (h : isNonterminalB (statusAt s i) = false) :
    isNonterminalB (statusAt (sweepStep s j) i) = false := by
  unfold sweepStep
  split
  · rw [statusAt_setStatus]
    split
    · cases statusAt s i <;> rfl
    · exact h
  · exact h

theorem foldl_sweep_preserves_not_nonterminal (l : List Nat) (s : QueueManager) (i : Nat)
    (h : isNonterminalB (statusAt s i) = false) :
    isNonterminalB (statusAt (l.foldl sweepStep s) i) = false := by
  induction l generalizing s with
  | nil => exact h
  | cons j l ih =>
    rw [List.foldl_cons]
    exact ih (sweepStep s j) (sweepStep_preserves_not_nonterminal s j i h)

theorem sweep_all_not_nonterminal (l : List Nat) (s : QueueManager) :
    ∀ i ∈ l, isNonterminalB (statusAt (l.foldl sweepStep s) i) = false := by
  induction l generalizing s with
  | nil => intro i h; exact absurd h (List.not_mem_nil i)
  | cons j l ih =>
    intro i hi
    rw [List.foldl_cons]
    rcases List.mem_cons.mp hi with h | h
    · subst h
      exact foldl_sweep_preserves_not_nonterminal l (sweepStep s i) i
        (sweepStep_not_nonterminal_self s i)
    · exact ih (sweepStep s j) i h

theorem sweepStep_user_tasks (t : QueueManager) (i : Nat) :
    (sweepStep t i).user_tasks = t.user_tasks := by
  unfold sweepStep
  split <;> rfl

theorem cancelActiveStage_user_tasks (s : QueueManager) (u : Int) :
    (cancelActiveStage s u).user_tasks = s.user_tasks := by
  unfold cancelActiveStage
  cases s.active_tasks u <;> rfl

theorem statusEvolution_cancelActiveStage (s : QueueManager) (u : Int) :
    StatusEvolution s (cancelActiveStage s u) := by
  unfold cancelActiveStage
  cases s.active_tasks u with
  | none => exact statusEvolution_refl s
  | some i => exact statusEvolution_setStatus s i

theorem cancel_all_fst_user_tasks (s : QueueManager) (u : Int) :
    (cancel_all_tasks s u).1.user_tasks = s.user_tasks := by
  simp only [cancel_all_tasks]
  rw [foldl_preserve QueueManager.user_tasks sweepStep sweepStep_user_tasks]
  rw [show ∀ (t : QueueManager), (emptyQueueStage t u).user_tasks = t.user_tasks from fun _ => rfl]
  rw [foldl_preserve QueueManager.user_tasks drainStep (fun _ _ => rfl)]
  exact cancelActiveStage_user_tasks (setCancelFlag s u) u

theorem statusEvolution_cancel_all (s : QueueManager) (u : Int) :
    StatusEvolution s (cancel_all_tasks s u).1 := by
  simp only [cancel_all_tasks]
  refine statusEvolution_trans ?_ (statusEvolution_foldl sweepStep statusEvolution_sweepStep _ _)
  refine statusEvolution_trans ?_ (show StatusEvolution _ (emptyQueueStage _ u) from fun _ => Or.inl rfl)
  refine statusEvolution_trans ?_
    (statusEvolution_foldl drainStep (fun t j => statusEvolution_setStatus t j) _ _)
  exact statusEvolution_trans (fun _ => Or.inl rfl) (statusEvolution_cancelActiveStage _ u)

theorem cancel_all_not_nonterminal (s : QueueManager) (u : Int) :
    ∀ i ∈ s.user_tasks u, isNonterminalB (statusAt (cancel_all_tasks s u).1 i) = false := by
  intro i hi
  simp only [cancel_all_tasks]
  apply sweep_all_not_nonterminal
  rw [show ∀ (t : QueueManager), (emptyQueueStage t u).user_tasks = t.user_tasks from fun _ => rfl]
  rw [foldl_preserve QueueManager.user_tasks drainStep (fun _ _ => rfl)]
  rw [cancelActiveStage_user_tasks (setCancelFlag s u) u]
  exact hi

/-! ## C1: cancel_all_tasks -/

/-- C1 (counterexample): the integer returned by cancel_all_tasks does not, in
general, equal the number of tasks transitioned to cancelled by that call.
After the history [add t1, dequeue for user 1, cancel the current task],
the single task is already cancelled, yet cancel_all_tasks counts the active
slot again and returns 1 while zero tasks change status. -/
theorem cancel_all_count_mismatch :
    (cancel_all_tasks (runOps [Op.add t1, Op.next 1, Op.cancelCur 1]) 1).2 = 1 ∧
    countTransitioned (runOps [Op.add t1, Op.next 1, Op.cancelCur 1])
      (cancel_all_tasks (runOps [Op.add t1, Op.next 1, Op.cancelCur 1]) 1).1 = 0 := by
  constructor <;> decide

/-- C1 (amended): after cancel_all_tasks(u), get_user_tasks(u) is empty and
every task of the user that was still non-terminal before the call has status
cancelled; the returned integer equals (1 if an active-task slot existed,
else 0) plus the number of tasks drained from the pending queue — which can
differ from the number of tasks actually transitioned to cancelled. -/
theorem cancel_all_tasks_spec (s : QueueManager) (u : Int) :
    get_user_tasks (cancel_all_tasks s u).1 u = [] ∧
    (∀ i ∈ s.user_tasks u, isNonterminalB (statusAt s i) = true →
        statusAt (cancel_all_tasks s u).1 i = some Status.cancelled) ∧
    (cancel_all_tasks s u).2 =
      (match s.active_tasks u with
        | some _ => 1
        | none => 0) + (s.queues u).length := by
  refine ⟨?_, ?_, ?_⟩
  · unfold get_user_tasks
    rw [List.filter_eq_nil_iff]
    intro i hi
    rw [cancel_all_fst_user_tasks] at hi
    have hf := cancel_all_not_nonterminal s u i hi
    simp [hf]
  · intro i hi hnt
    rcases statusEvolution_cancel_all s u i with e | ⟨_, e⟩
    · have hf := cancel_all_not_nonterminal s u i hi
      rw [e, hnt] at hf
      exact Bool.noConfusion hf
    · exact e
  · cases ha : s.active_tasks u <;>
      simp [cancel_all_tasks, cancelActiveStage, setCancelFlag, setStatus, ha]

/-- Witness for cancel_all_tasks_spec at a concrete history: two freshly
enqueued tasks for user 1; task 0 ends cancelled and get_user_tasks is empty. -/
theorem cancel_all_tasks_spec_witness :
    statusAt (cancel_all_tasks (runOps [Op.add t1, Op.add t2]) 1).1 0 = some Status.cancelled ∧
    get_user_tasks (cancel_all_tasks (runOps [Op.add t1, Op.add t2]) 1).1 1 = [] :=
  ⟨(cancel_all_tasks_spec (runOps [Op.add t1, Op.add t2]) 1).2.1 0 (by decide) (by decide),
   (cancel_all_tasks_spec (runOps [Op.add t1, Op.add t2]) 1).1⟩

/-! ## C2: cancel_current_task and the consumer loop -/

/-- C2 (counterexample): with one task active and one still pending for user 1,
cancel_current_task returns true, yet it also sets the user-level cancellation
flag (is_cancelled becomes true), and the next consumer-loop iteration stops
the batch instead of dequeuing the pending task. -/
theorem cancel_current_not_scoped :
    (cancel_current_task (runOps [Op.add t1, Op.add t2, Op.next 1]) 1).2 = true ∧
    (cancel_current_task (runOps [Op.add t1, Op.add t2, Op.next 1]) 1).1.queues 1 = [1] ∧
    is_cancelled (cancel_current_task (runOps [Op.add t1, Op.add t2, Op.next 1]) 1).1 1 = true ∧
    (loop_iteration (cancel_current_task (runOps [Op.add t1, Op.add t2, Op.next 1]) 1).1 1).2 =
      LoopDecision.stopCancelled := by
  refine ⟨by decide, by decide, by decide, by decide⟩

/-- C2 (amended): whenever cancel_current_task(u) returns true it also sets the
user-level whole-queue cancellation flag, and the consumer loop's next
iteration observes that flag and stops the batch (clearing the flag) without
dequeuing any pending task. -/
theorem cancel_current_sets_flag_stops_batch (s : QueueManager) (u : Int)
    (h : (cancel_current_task s u).2 = true) :
    is_cancelled (cancel_current_task s u).1 u = true ∧
    (loop_iteration (cancel_current_task s u).1 u).2 = LoopDecision.stopCancelled ∧
    (loop_iteration (cancel_current_task s u).1 u).1.queues u =
      (cancel_current_task s u).1.queues u := by
  cases ha : s.active_tasks u with
  | none => simp [cancel_current_task, ha] at h
  | some i =>
    have hflag : is_cancelled (cancel_current_task s u).1 u = true := by
      simp [cancel_current_task, ha, is_cancelled, setStatus]
    refine ⟨hflag, ?_, ?_⟩
    · simp [loop_iteration, hflag]
    · simp [loop_iteration, hflag, clear_cancelled]

/-- Witness for cancel_current_sets_flag_stops_batch: user 1 with task 0
active and task 1 pending. -/
theorem cancel_current_sets_flag_stops_batch_witness :
    is_cancelled (cancel_current_task (runOps [Op.add t1, Op.add t2, Op.next 1]) 1).1 1 = true ∧
    (loop_iteration (cancel_current_task (runOps [Op.add t1, Op.add t2, Op.next 1]) 1).1 1).2 =
      LoopDecision.stopCancelled ∧
    (loop_iteration (cancel_current_task (runOps [Op.add t1, Op.add t2, Op.next 1]) 1).1 1).1.queues 1 =
      (cancel_current_task (runOps [Op.add t1, Op.add t2, Op.next 1]) 1).1.queues 1 :=
  cancel_current_sets_flag_stops_batch (runOps [Op.add t1, Op.add t2, Op.next 1]) 1 (by decide)

/-! ## C3: get_next_task and the cancellation flag -/

/-- C3 (confirmed): get_next_task never clears the user's cancellation flag,
so whenever whole-queue cancellation is pending the flag remains observable to
the caller after the call, whatever the call returned. -/
theorem get_next_task_preserves_cancel_flag (s : QueueManager) (u : Int)
    (h : is_cancelled s u = true) :
    is_cancelled (get_next_task s u).1 u = true := by
  unfold get_next_task
  cases hq : s.queues u
  · exact h
  · exact h

/-- Witness: the flag set by a cancel of the current task survives a
subsequent get_next_task. -/
theorem get_next_task_preserves_cancel_flag_witness :
    is_cancelled (get_next_task (runOps [Op.add t1, Op.next 1, Op.cancelCur 1]) 1).1 1 = true :=
  get_next_task_preserves_cancel_flag (runOps [Op.add t1, Op.next 1, Op.cancelCur 1]) 1 (by decide)

/-! ## C4: FIFO order -/

theorem add_task_fst_queues (s : QueueManager) (t : Task) (u : Int) (h : t.user_id = u) :
    (add_task s t).1.queues u = s.queues u ++ [s.next_idx] := by
  simp [add_task, h]

theorem addAll_spec (ts : List Task) : ∀ (s : QueueManager) (u : Int), (∀ t ∈ ts, t.user_id = u) →
    (addAll s ts).queues u = s.queues u ++ List.range' s.next_idx ts.length ∧
    (∀ k, k < ts.length → (addAll s ts).store (s.next_idx + k) = ts.get? k) ∧
    (∀ j, j < s.next_idx → (addAll s ts).store j = s.store j) := by
  induction ts with
  | nil =>
    intro s u _
    refine ⟨by simp [addAll], ?_, fun j _ => rfl⟩
    intro k hk
    exact absurd hk (Nat.not_lt_zero k)
  | cons t ts ih =>
    intro s u hts
    have ht : t.user_id = u := hts t (List.mem_cons_self t ts)
    obtain ⟨ihq, ihs, ihp⟩ :=
      ih (add_task s t).1 u (fun x hx => hts x (List.mem_cons_of_mem t hx))
    have hstep : addAll s (t :: ts) = addAll (add_task s t).1 ts := rfl
    rw [hstep]
    refine ⟨?_, ?_, ?_⟩
    · rw [ihq, add_task_fst_queues s t u ht]
      rw [List.append_assoc]
      rfl
    · intro k hk
      cases k with
      | zero =>
        rw [show s.next_idx + 0 = s.next_idx from rfl,
            ihp s.next_idx (Nat.lt_succ_self _)]
        show (if s.next_idx = s.next_idx then some t else s.store s.next_idx) = some t
        rw [if_pos rfl]
      | succ k =>
        have hk2 : k < ts.length := Nat.lt_of_succ_lt_succ hk
        rw [show s.next_idx + (k + 1) = s.next_idx + 1 + k from by omega]
        exact ihs k hk2
    · intro j hj
      rw [ihp j (Nat.lt_succ_of_lt hj)]
      show (if j = s.next_idx then some t else s.store j) = s.store j
      rw [if_neg (Nat.ne_of_lt hj)]

theorem drain_spec (idxs : List Nat) : ∀ (ts : List Task) (s : QueueManager) (u : Int),
    s.queues u = idxs →
    (∀ k i, idxs.get? k = some i → s.store i = ts.get? k) →
    idxs.length = ts.length →
    drainTasks idxs.length s u = ts := by
  induction idxs with
  | nil =>
    intro ts s u _ _ hlen
    cases ts with
    | nil => rfl
    | cons t ts => exact absurd hlen (by simp)
  | cons i idxs ih =>
    intro ts s u hq hst hlen
    cases ts with
    | nil => exact absurd hlen (by simp)
    | cons t ts =>
      have hg : get_next_task s u =
          ({ s with
              queues := fun v => if v = u then idxs else s.queues v
              active_tasks := fun v => if v = u then some i else s.active_tasks v }, some i) := by
        unfold get_next_task
        rw [hq]
      have hsi : s.store i = some t := hst 0 i rfl
      show drainTasks (idxs.length + 1) s u = t :: ts
      simp only [drainTasks, hg, hsi]
      show t :: drainTasks idxs.length _ u = t :: ts
      refine congrArg (t :: ·) (ih ts _ u ?_ ?_ (Nat.succ_injective hlen))
      · show (if u = u then idxs else s.queues u) = idxs
        rw [if_pos rfl]
      · intro k j hkj
        exact hst (k + 1) j hkj

/-- C4 (confirmed): get_next_task returns None exactly when the user's pending
FIFO is empty, and for every batch of tasks of one user enqueued by successive
add_task calls into a fresh manager, successive get_next_task calls hand the
tasks back in exactly the order they were enqueued. -/
theorem fifo_spec :
    (∀ (s : QueueManager) (u : Int), (get_next_task s u).2 = none ↔ s.queues u = []) ∧
    (∀ (ts : List Task) (u : Int), (∀ t ∈ ts, t.user_id = u) →
      drainTasks ts.length (addAll QueueManager.init ts) u = ts) := by
  constructor
  · intro s u
    unfold get_next_task
    cases hq : s.queues u <;> simp
  · intro ts u hts
    obtain ⟨hq, hst, _⟩ := addAll_spec ts QueueManager.init u hts
    have hlen : (List.range' 0 ts.length).length = ts.length := List.length_range' ..
    refine hlen ▸ drain_spec (List.range' 0 ts.length) ts (addAll QueueManager.init ts) u ?_ ?_ hlen
    · rw [hq]
      rfl
    · intro k i hki
      have hk : k < ts.length := by
        by_contra hk
        rw [List.get?_eq_getElem?, List.getElem?_eq_none (by simpa [hlen] using Nat.le_of_not_lt hk)] at hki
        exact Option.noConfusion hki
      have : i = k := by
        rw [List.get?_eq_getElem?] at hki
        have := List.getElem?_eq_getElem (l := List.range' 0 ts.length) (by simpa [hlen] using hk)
        rw [this] at hki
        have hv := Option.some.inj hki
        simpa using hv.symm
      subst this
      have := hst i hk
      simpa [QueueManager.init] using this

/-- Witness for fifo_spec: two tasks of user 1 drain back in order. -/
theorem fifo_spec_witness :
    drainTasks 2 (addAll QueueManager.init [t1, t2]) 1 = [t1, t2] :=
  fifo_spec.2 [t1, t2] 1 (by decide)

/-! ## Lemmas about mark_completed -/

theorem markStatusStep_user_tasks (s : QueueManager) (u : Int) (tid : String) (st : Status) :
    (markStatusStep s u tid st).user_tasks = s.user_tasks := by
  unfold markStatusStep
  cases (s.user_tasks u).find? (fun i => decide (taskIdAt s i = some tid)) <;> rfl

theorem markStatusStep_active (s : QueueManager) (u : Int) (tid : String) (st : Status) :
    (markStatusStep s u tid st).active_tasks = s.active_tasks := by
  unfold markStatusStep
  cases (s.user_tasks u).find? (fun i => decide (taskIdAt s i = some tid)) <;> rfl

theorem taskIdAt_markStatusStep (s : QueueManager) (u : Int) (tid : String) (st : Status)
    (i : Nat) : taskIdAt (markStatusStep s u tid st) i = taskIdAt s i := by
  unfold markStatusStep
  cases (s.user_tasks u).find? (fun i => decide (taskIdAt s i = some tid)) with
  | none => rfl
  | some j => exact taskIdAt_setStatus s j st i

theorem markStatusStep_none (s : QueueManager) (u : Int) (tid : String) (st : Status)
    (h : (s.user_tasks u).find? (fun i => decide (taskIdAt s i = some tid)) = none) :
    markStatusStep s u tid st = s := by
  unfold markStatusStep
  rw [h]

theorem statusAt_markStatusStep_found (s : QueueManager) (u : Int) (tid : String) (st : Status)
    (i : Nat) (h : (s.user_tasks u).find? (fun i => decide (taskIdAt s i = some tid)) = some i) :
    statusAt (markStatusStep s u tid st) i = (statusAt s i).map (fun _ => st) := by
  unfold markStatusStep
  rw [h, statusAt_setStatus, if_pos rfl]

theorem clearActiveStep_store (s : QueueManager) (u : Int) (tid : String) :
    (clearActiveStep s u tid).store = s.store := by
  cases h : s.active_tasks u with
  | none => simp [clearActiveStep, h]
  | some j =>
    simp only [clearActiveStep, h]
    split <;> rfl

theorem statusAt_clearActiveStep (s : QueueManager) (u : Int) (tid : String) (i : Nat) :
    statusAt (clearActiveStep s u tid) i = statusAt s i := by
  unfold statusAt
  rw [clearActiveStep_store]

theorem taskIdAt_clearActiveStep (s : QueueManager) (u : Int) (tid : String) (i : Nat) :
    taskIdAt (clearActiveStep s u tid) i = taskIdAt s i := by
  unfold taskIdAt
  rw [clearActiveStep_store]

theorem clearActiveStep_user_tasks (s : QueueManager) (u : Int) (tid : String) :
    (clearActiveStep s u tid).user_tasks = s.user_tasks := by
  cases h : s.active_tasks u with
  | none => simp [clearActiveStep, h]
  | some j =>
    simp only [clearActiveStep, h]
    split <;> rfl

theorem clearActiveStep_active_char (s : QueueManager) (u : Int) (tid : String) :
    (clearActiveStep s u tid).active_tasks u =
      match s.active_tasks u with
      | some j => if taskIdAt s j = some tid then none else some j
      | none => none := by
  cases h : s.active_tasks u with
  | none => simp [clearActiveStep, h]
  | some j =>
    simp only [clearActiveStep, h]
    split
    · show (if u = u then none else s.active_tasks u) = none
      rw [if_pos rfl]
    · exact h

theorem mark_completed_user_tasks (s : QueueManager) (u : Int) (tid : String) (b : Bool) :
    (mark_completed s u tid b).user_tasks = s.user_tasks := by
  unfold mark_completed
  rw [clearActiveStep_user_tasks, markStatusStep_user_tasks]

theorem taskIdAt_mark_completed (s : QueueManager) (u : Int) (tid : String) (b : Bool) (i : Nat) :
    taskIdAt (mark_completed s u tid b) i = taskIdAt s i := by
  unfold mark_completed
  rw [taskIdAt_clearActiveStep, taskIdAt_markStatusStep]

/-! ## C5: terminal statuses are not immutable -/

/-- C5 (counterexample): a task whose status is cancelled is changed to
completed by a subsequent mark_completed naming its id. -/
theorem cancelled_task_resurrected :
    statusAt (runOps [Op.add t1, Op.next 1, Op.cancelCur 1]) 0 = some Status.cancelled ∧
    statusAt (mark_completed (runOps [Op.add t1, Op.next 1, Op.cancelCur 1]) 1 "t1" true) 0 =
      some Status.completed := by
  exact ⟨by decide, by decide⟩

/-- C5 (amended): mark_completed performs no terminal-status guard: it rewrites
the status of the first history task whose id matches to completed (success)
or failed (failure) regardless of the task's current status — in particular a
cancelled task is resurrected. -/
theorem mark_completed_overwrites (s : QueueManager) (u : Int) (tid : String) (success : Bool)
    (i : Nat)
    (h : (s.user_tasks u).find? (fun i => decide (taskIdAt s i = some tid)) = some i)
    (h2 : (s.store i).isSome = true) :
    statusAt (mark_completed s u tid success) i =
      some (if success then Status.completed else Status.failed) := by
  unfold mark_completed
  rw [statusAt_clearActiveStep, statusAt_markStatusStep_found s u tid _ i h]
  cases hs : s.store i with
  | none =>
    rw [hs] at h2
    exact Bool.noConfusion h2
  | some t => simp [statusAt, hs]

/-- Witness for mark_completed_overwrites at the history of the C5 scenario. -/
theorem mark_completed_overwrites_witness :
    statusAt (mark_completed (runOps [Op.add t1, Op.next 1, Op.cancelCur 1]) 1 "t1" false) 0 =
      some (if false then Status.completed else Status.failed) :=
  mark_completed_overwrites (runOps [Op.add t1, Op.next 1, Op.cancelCur 1]) 1 "t1" false 0
    (by decide) (by decide)

/-! ## C6: idempotence of mark_completed -/

theorem mark_completed_active_char (s : QueueManager) (u : Int) (tid : String) (b : Bool) :
    (mark_completed s u tid b).active_tasks u =
      match s.active_tasks u with
      | some j => if taskIdAt s j = some tid then none else some j
      | none => none := by
  unfold mark_completed
  rw [clearActiveStep_active_char, markStatusStep_active]
  cases h : s.active_tasks u with
  | none => rfl
  | some j => simp [taskIdAt_markStatusStep]

theorem statusAt_mark_completed_char (s : QueueManager) (u : Int) (tid : String) (b : Bool)
    (i : Nat) :
    statusAt (mark_completed s u tid b) i =
      match (s.user_tasks u).find? (fun j => decide (taskIdAt s j = some tid)) with
      | some j =>
        if i = j then (statusAt s i).map (fun _ => if b then Status.completed else Status.failed)
        else statusAt s i
      | none => statusAt s i := by
  unfold mark_completed
  rw [statusAt_clearActiveStep]
  unfold markStatusStep
  cases h : (s.user_tasks u).find? (fun j => decide (taskIdAt s j = some tid)) with
  | none => rfl
  | some j => simp [statusAt_setStatus]

theorem mark_completed_active_some (s : QueueManager) (u : Int) (tid : String) (b : Bool)
    (j : Nat) (h : (mark_completed s u tid b).active_tasks u = some j) :
    s.active_tasks u = some j ∧ taskIdAt s j ≠ some tid := by
  rw [mark_completed_active_char] at h
  cases ha : s.active_tasks u with
  | none =>
    rw [ha] at h
    exact absurd h (by simp)
  | some j0 =>
    rw [ha] at h
    by_cases hid : taskIdAt s j0 = some tid
    · simp [hid] at h
    · simp [hid] at h
      cases h
      exact ⟨rfl, hid⟩

/-- C6 (counterexample): after mark_completed clears the active slot for the
task with id "t1", a second mark_completed for the same user with the now
stale id "t1" but the opposite success flag rewrites that task's status from
completed to failed — it does not change nothing. -/
theorem mark_completed_stale_id_changes_status :
    (mark_completed (runOps [Op.add t1, Op.next 1]) 1 "t1" true).active_tasks 1 = none ∧
    statusAt (mark_completed (runOps [Op.add t1, Op.next 1]) 1 "t1" true) 0 =
      some Status.completed ∧
    statusAt
      (mark_completed (mark_completed (runOps [Op.add t1, Op.next 1]) 1 "t1" true) 1 "t1" false)
      0 = some Status.failed := by
  exact ⟨by decide, by decide, by decide⟩

/-- C6 (amended): mark_completed with an id matching the user's active task
clears the active slot; repeating the very same call (same id and same success
flag) changes neither the active slot nor any task's status; and a call whose
id matches neither a history task nor the active task is a strict no-op.
However a repeat with a stale id still present in history and a different
success flag rewrites that task's status (see the counterexample). -/
theorem mark_completed_idempotent (s : QueueManager) (u : Int) (tid : String) (success : Bool) :
    (∀ j, s.active_tasks u = some j → taskIdAt s j = some tid →
      (mark_completed s u tid success).active_tasks u = none) ∧
    ((mark_completed (mark_completed s u tid success) u tid success).active_tasks u =
        (mark_completed s u tid success).active_tasks u ∧
      ∀ i, statusAt (mark_completed (mark_completed s u tid success) u tid success) i =
        statusAt (mark_completed s u tid success) i) ∧
    ((s.user_tasks u).find? (fun j => decide (taskIdAt s j = some tid)) = none →
      (∀ j, s.active_tasks u = some j → taskIdAt s j ≠ some tid) →
      mark_completed s u tid success = s) := by
  refine ⟨?_, ⟨?_, ?_⟩, ?_⟩
  · intro j hact hid
    rw [mark_completed_active_char, hact]
    simp [hid]
  · rw [mark_completed_active_char (mark_completed s u tid success)]
    cases hM : (mark_completed s u tid success).active_tasks u with
    | none => rfl
    | some j =>
      obtain ⟨_, hne⟩ := mark_completed_active_some s u tid success j hM
      simp [taskIdAt_mark_completed, hne]
  · intro i
    rw [statusAt_mark_completed_char (mark_completed s u tid success), mark_completed_user_tasks]
    rw [show (fun j => decide (taskIdAt (mark_completed s u tid success) j = some tid)) =
          (fun j => decide (taskIdAt s j = some tid)) from
        funext fun j => by rw [taskIdAt_mark_completed]]
    cases hf : (s.user_tasks u).find? (fun j => decide (taskIdAt s j = some tid)) with
    | none => rfl
    | some j =>
      by_cases hij : i = j
      · subst hij
        have h1 : statusAt (mark_completed s u tid success) i =
            (statusAt s i).map (fun _ => if success then Status.completed else Status.failed) := by
          rw [statusAt_mark_completed_char, hf]
          simp
        simp only [if_pos rfl, h1]
        cases statusAt s i <;> rfl
      · simp [hij]
  · intro hf hact
    unfold mark_completed
    rw [markStatusStep_none s u tid _ hf]
    cases ha : s.active_tasks u with
    | none => simp [clearActiveStep, ha]
    | some j =>
      simp only [clearActiveStep, ha]
      rw [if_neg (hact j ha)]

/-- Witness for mark_completed_idempotent: user 1 with task 0 active; the call
clears the slot, a repeated identical call keeps task 0's status, and a call
with the unknown id "zz" is a no-op. -/
theorem mark_completed_idempotent_witness :
    (mark_completed (runOps [Op.add t1, Op.next 1]) 1 "t1" true).active_tasks 1 = none ∧
    statusAt
      (mark_completed (mark_completed (runOps [Op.add t1, Op.next 1]) 1 "t1" true) 1 "t1" true)
      0 = statusAt (mark_completed (runOps [Op.add t1, Op.next 1]) 1 "t1" true) 0 ∧
    mark_completed (runOps [Op.add t1, Op.next 1]) 1 "zz" true = runOps [Op.add t1, Op.next 1] :=
  ⟨(mark_completed_idempotent (runOps [Op.add t1, Op.next 1]) 1 "t1" true).1 0
      (by decide) (by decide),
   (mark_completed_idempotent (runOps [Op.add t1, Op.next 1]) 1 "t1" true).2.1.2 0,
   (mark_completed_idempotent (runOps [Op.add t1, Op.next 1]) 1 "zz" true).2.2 (by decide)
      (by
        intro j h
        have h0 : (runOps [Op.add t1, Op.next 1]).active_tasks 1 = some 0 := by decide
        rw [h0] at h
        cases h
        decide)⟩

/-! ## C7: cancel_current_task scoping -/

/-- C7 (confirmed): cancel_current_task returns false and leaves the state
completely unchanged when the user has no active task; when a task is active
it returns true, that task's status becomes cancelled, and no other task's
status changes. -/
theorem cancel_current_task_spec (s : QueueManager) (u : Int) :
    (s.active_tasks u = none → cancel_current_task s u = (s, false)) ∧
    (∀ i, s.active_tasks u = some i →
      (cancel_current_task s u).2 = true ∧
      statusAt (cancel_current_task s u).1 i = (statusAt s i).map (fun _ => Status.cancelled) ∧
      ∀ j, j ≠ i → statusAt (cancel_current_task s u).1 j = statusAt s j) := by
  constructor
  · intro h
    simp [cancel_current_task, h]
  · intro i h
    refine ⟨?_, ?_, ?_⟩
    · simp [cancel_current_task, h]
    · simp [cancel_current_task, h, statusAt, setStatus]
      cases s.store i <;> rfl
    · intro j hj
      simp [cancel_current_task, h, statusAt, setStatus, hj]

/-- Witness for cancel_current_task_spec: a fresh manager for the no-active
case, a one-task history for the active case. -/
theorem cancel_current_task_spec_witness :
    cancel_current_task QueueManager.init 7 = (QueueManager.init, false) ∧
    (cancel_current_task (runOps [Op.add t1, Op.next 1]) 1).2 = true ∧
    statusAt (cancel_current_task (runOps [Op.add t1, Op.next 1]) 1).1 0 =
      (statusAt (runOps [Op.add t1, Op.next 1]) 0).map (fun _ => Status.cancelled) ∧
    statusAt (cancel_current_task (runOps [Op.add t1, Op.next 1]) 1).1 5 =
      statusAt (runOps [Op.add t1, Op.next 1]) 5 :=
  ⟨(cancel_current_task_spec QueueManager.init 7).1 rfl,
   ((cancel_current_task_spec (runOps [Op.add t1, Op.next 1]) 1).2 0 (by decide)).1,
   ((cancel_current_task_spec (runOps [Op.add t1, Op.next 1]) 1).2 0 (by decide)).2.1,
   ((cancel_current_task_spec (runOps [Op.add t1, Op.next 1]) 1).2 0 (by decide)).2.2 5 (by decide)⟩

/-! ## C8: get_queue_position -/

/-- C8 (confirmed): get_queue_position(u) returns (n + 1, m) where n counts the
user's historical tasks with a terminal status (completed, failed or
cancelled) and m is the length of the user's historical list. -/
theorem get_queue_position_spec (s : QueueManager) (u : Int) :
    get_queue_position s u =
      ((s.user_tasks u).countP (fun i =>
          decide (statusAt s i = some Status.completed ∨ statusAt s i = some Status.failed ∨
            statusAt s i = some Status.cancelled)) + 1,
       (s.user_tasks u).length) := by
  unfold get_queue_position
  rw [show (fun i => isTerminalB (statusAt s i)) =
        (fun i => decide (statusAt s i = some Status.completed ∨
          statusAt s i = some Status.failed ∨ statusAt s i = some Status.cancelled)) from
      funext fun i => by
        rcases statusAt s i with _ | st
        · rfl
        · cases st <;> rfl]

/-! ## C9: per-user isolation -/

/-- All observable per-user state of user `v`: pending FIFO, active-task slot,
historical list, cancellation flag, processing flag. -/
def userView (s : QueueManager) (v : Int) :
    List Nat × Option Nat × List Nat × Bool × Bool :=
  (s.queues v, s.active_tasks v, s.user_tasks v, s.cancelled_users v, s.processing v)

/-- C9 (confirmed): every manager operation invoked for user u leaves the
pending FIFO, active-task slot, historical list, cancellation flag and
processing flag of every other user v unchanged. -/
theorem per_user_isolation (s : QueueManager) (u v : Int) (hv : v ≠ u)
    (t : Task) (tid : String) (b : Bool) (ht : t.user_id = u) :
    userView (add_task s t).1 v = userView s v ∧
    userView (get_next_task s u).1 v = userView s v ∧
    userView (cancel_current_task s u).1 v = userView s v ∧
    userView (cancel_all_tasks s u).1 v = userView s v ∧
    userView (mark_completed s u tid b) v = userView s v ∧
    userView (clear_user_tasks s u) v = userView s v ∧
    userView (set_processing s u b) v = userView s v := by
  have hsweep : ∀ (l : List Nat) (x : QueueManager), userView (l.foldl sweepStep x) v = userView x v :=
    fun l x => foldl_preserve (fun y => userView y v) sweepStep
      (fun y i => by unfold sweepStep; split <;> rfl) l x
  have hdrain : ∀ (l : List Nat) (x : QueueManager), userView (l.foldl drainStep x) v = userView x v :=
    fun l x => foldl_preserve (fun y => userView y v) drainStep (fun _ _ => rfl) l x
  refine ⟨?_, ?_, ?_, ?_, ?_, ?_, ?_⟩
  · simp [userView, add_task, ht, hv]
  · cases hq : s.queues u with
    | nil => simp [get_next_task, hq]
    | cons i l => simp [userView, get_next_task, hq, hv]
  · cases ha : s.active_tasks u with
    | none => simp [cancel_current_task, ha]
    | some i => simp [userView, cancel_current_task, ha, setStatus, hv]
  · simp only [cancel_all_tasks]
    rw [hsweep]
    rw [show ∀ x : QueueManager, userView (emptyQueueStage x u) v = userView x v from
      fun x => by simp [userView, emptyQueueStage, hv]]
    rw [hdrain]
    rw [show ∀ x : QueueManager, userView (cancelActiveStage x u) v = userView x v from
      fun x => by unfold cancelActiveStage; cases x.active_tasks u <;> rfl]
    simp [userView, setCancelFlag, hv]
  · unfold mark_completed
    rw [show ∀ x : QueueManager, userView (clearActiveStep x u tid) v = userView x v from
      fun x => by
        cases h : x.active_tasks u with
        | none => simp [clearActiveStep, h]
        | some j =>
          simp only [clearActiveStep, h]
          split
          · simp [userView, hv]
          · rfl]
    unfold markStatusStep
    cases (s.user_tasks u).find? (fun i => decide (taskIdAt s i = some tid)) <;> rfl
  · simp [userView, clear_user_tasks, hv]
  · simp [userView, set_processing, hv]

/-- Witness for per_user_isolation: user 1 operations leave user 2's view of a
concrete two-task state unchanged. -/
theorem per_user_isolation_witness :
    userView (add_task (runOps [Op.add t1, Op.next 1]) t2).1 2 =
      userView (runOps [Op.add t1, Op.next 1]) 2 ∧
    userView (cancel_all_tasks (runOps [Op.add t1, Op.next 1]) 1).1 2 =
      userView (runOps [Op.add t1, Op.next 1]) 2 :=
  ⟨(per_user_isolation (runOps [Op.add t1, Op.next 1]) 1 2 (by decide) t2 "t1" true (by decide)).1,
   (per_user_isolation (runOps [Op.add t1, Op.next 1]) 1 2 (by decide) t2 "t1" true
      (by decide)).2.2.2.1⟩

/-! ## C10: enqueueing is total -/

/-- C10 (confirmed): add_task always returns true (its error branch is
unreachable for the in-memory structures), and consequently
add_multiple_tasks returns exactly the length of its input list. -/
theorem add_task_total (s : QueueManager) (t : Task) (ts : List Task) :
    (add_task s t).2 = true ∧ (add_multiple_tasks s ts).2 = ts.length := by
  refine ⟨rfl, ?_⟩
  suffices h : ∀ (l : List Task) (x : QueueManager) (c : Nat),
      (l.foldl (fun p t =>
        let r := add_task p.1 t
        (r.1, if r.2 then p.2 + 1 else p.2)) (x, c)).2 = c + l.length by
    simpa [add_multiple_tasks] using h ts s 0
  intro l
  induction l with
  | nil =>
    intro x c
    simp
  | cons t l ih =>
    intro x c
    rw [List.foldl_cons]
    show (List.foldl (fun p t =>
        let r := add_task p.1 t
        (r.1, if r.2 then p.2 + 1 else p.2)) ((add_task x t).1, c + 1) l).2 = c + (t :: l).length
    rw [ih (add_task x t).1 (c + 1), List.length_cons]
    omega

end TeraboxDrive
